import Mathlib

/-
  Verification of the Signal-to-Vector Profile & Similarity Engine of this
  repository: the vector store (backend/src/services/vectorStore.ts), the
  embedding fallback (backend/src/services/llm.ts), the UMAP projection
  fallback (backend/src/services/projection.ts) and the match-explanation
  route (app/api/graph/match/[id1]/[id2]/route.ts, backend/src/routes/graph.ts).

  Embedding conventions:
  * JavaScript floating-point numbers are idealized as real numbers (ℝ);
    all arithmetic is exact.
  * Vectors (number[]) are lists of reals.
  * Thrown errors are modelled with Except and an explicit error datatype,
    one constructor per distinct throw site.
  * The persistence layer (../data/users) and the asynchronous semantic
    memory are external collaborators; functions that read them take the
    relevant record or vector as an explicit argument.
  * JavaScript objects used as string-keyed records are association lists,
    and Map iteration order is the list order (JS Maps iterate in insertion
    order; Array.prototype.sort is stable, modelled by a stable insertion
    sort).
-/

namespace Engine

/-- The five bounded personality traits
(backend/src/services/vectorStore.ts, type Traits). -/
structure Traits where
  openness : ℝ
  conscientiousness : ℝ
  extraversion : ℝ
  agreeableness : ℝ
  neuroticism : ℝ

/-- Names of the five traits, used to index the signal-to-trait weight
table and to state per-trait properties. -/
inductive TraitName where
  | openness
  | conscientiousness
  | extraversion
  | agreeableness
  | neuroticism
deriving DecidableEq, Repr

/-- Read one trait field by name. -/
def Traits.get (t : Traits) : TraitName → ℝ
  | .openness => t.openness
  | .conscientiousness => t.conscientiousness
  | .extraversion => t.extraversion
  | .agreeableness => t.agreeableness
  | .neuroticism => t.neuroticism

/-- Add x to the named trait field (the += in the signal loop of
buildProfileUpdateFromSignals). -/
def Traits.addTo (t : Traits) : TraitName → ℝ → Traits
  | .openness, x => ⟨t.openness + x, t.conscientiousness, t.extraversion, t.agreeableness, t.neuroticism⟩
  | .conscientiousness, x => ⟨t.openness, t.conscientiousness + x, t.extraversion, t.agreeableness, t.neuroticism⟩
  | .extraversion, x => ⟨t.openness, t.conscientiousness, t.extraversion + x, t.agreeableness, t.neuroticism⟩
  | .agreeableness, x => ⟨t.openness, t.conscientiousness, t.extraversion, t.agreeableness + x, t.neuroticism⟩
  | .neuroticism, x => ⟨t.openness, t.conscientiousness, t.extraversion, t.agreeableness, t.neuroticism + x⟩

/-- A profile update extracted from one conversational turn
(vectorStore.ts, type ProfileUpdate); interests is the entry list of the
JS Record<string, number>. -/
structure ProfileUpdate where
  traits : Traits
  interests : List (String × ℝ)
  confidence : ℝ

/-- DEFAULT_TRAITS of vectorStore.ts: every trait starts at 0.5. -/
def DEFAULT_TRAITS : Traits := ⟨0.5, 0.5, 0.5, 0.5, 0.5⟩

/-- A stored person record (../data/users User, as constructed in
vectorStore.ts and consumed in routes/graph.ts). -/
structure User where
  id : String
  name : String
  age : ℕ
  uni : String
  vector : List ℝ
  traits : Traits
  interests : List String
  confidence : ℝ

/-- SIGNAL_TO_TRAIT_WEIGHTS of vectorStore.ts, as the key-value table the
JS object literal is. -/
def SIGNAL_TO_TRAIT_WEIGHTS_TABLE : List (String × List (TraitName × ℝ)) :=
  [("spontaneity", [(.openness, 0.4), (.conscientiousness, -0.5)]),
   ("planning_preference", [(.conscientiousness, 0.5)]),
   ("social_energy", [(.extraversion, 0.6)]),
   ("curiosity", [(.openness, 0.6)]),
   ("introspection", [(.openness, 0.2), (.extraversion, -0.3)]),
   ("nature_orientation", [(.openness, 0.2), (.agreeableness, 0.2)]),
   ("novelty_seeking", [(.openness, 0.5)])]

/-- Property access SIGNAL_TO_TRAIT_WEIGHTS[signal]; none for unknown
signal names. -/
def SIGNAL_TO_TRAIT_WEIGHTS (signal : String) : Option (List (TraitName × ℝ)) :=
  SIGNAL_TO_TRAIT_WEIGHTS_TABLE.lookup signal

/-- The seven signal names of the weight table. -/
def SIGNAL_NAMES : List String :=
  ["spontaneity", "planning_preference", "social_energy", "curiosity",
   "introspection", "nature_orientation", "novelty_seeking"]

/-- TRAIT_WEIGHT of vectorStore.ts. -/
def TRAIT_WEIGHT : ℝ := 0.7

/-- SEMANTIC_WEIGHT of vectorStore.ts. -/
def SEMANTIC_WEIGHT : ℝ := 0.3

/-- SEMANTIC_DIM of vectorStore.ts. -/
def SEMANTIC_DIM : ℕ := 16

/-- clamp of vectorStore.ts: Math.min(Math.max(value, min), max). -/
noncomputable def clamp (value lo hi : ℝ) : ℝ := min (max value lo) hi

/-- Squared L2 norm: the reduce((sum, v) => sum + v*v, 0) accumulator that
normalizeVector and cosineSimilarity both compute. -/
noncomputable def normSq (v : List ℝ) : ℝ :=
  v.foldl (fun sum value => sum + value * value) 0

/-- L2 norm, Math.sqrt of the squared norm. -/
noncomputable def l2norm (v : List ℝ) : ℝ := Real.sqrt (normSq v)

/-- normalizeVector of vectorStore.ts: divide by the L2 norm, returning the
vector unchanged when the norm is zero (the JS !norm test). -/
noncomputable def normalizeVector (vector : List ℝ) : List ℝ :=
  let norm := Real.sqrt (normSq vector)
  if norm = 0 then vector
  else vector.map (fun value => value / norm)

/-- The five derived composite features of buildCombinedVector
(vectorStore.ts lines 114-120), in source order. -/
noncomputable def derivedTraits (traits : Traits) : List ℝ :=
  [clamp ((traits.extraversion + traits.agreeableness) / 2) 0 1,
   clamp ((traits.conscientiousness + (1 - traits.openness)) / 2) 0 1,
   clamp (1 - traits.neuroticism) 0 1,
   clamp ((traits.openness + traits.extraversion) / 2) 0 1,
   clamp ((traits.agreeableness + (1 - traits.neuroticism)) / 2) 0 1]

/-- buildCombinedVector of vectorStore.ts: normalize the 10-entry trait
block, scale by TRAIT_WEIGHT; normalize the semantic vector, scale by
SEMANTIC_WEIGHT; concatenate; normalize the result.  This is the `fuse`
operation of the specification. -/
noncomputable def buildCombinedVector (traits : Traits) (semantic : List ℝ) : List ℝ :=
  let traitVector :=
    (normalizeVector
      ([traits.openness, traits.conscientiousness, traits.extraversion,
        traits.agreeableness, traits.neuroticism] ++ derivedTraits traits)).map
      (fun value => value * TRAIT_WEIGHT)
  let semanticVector := (normalizeVector semantic).map (fun value => value * SEMANTIC_WEIGHT)
  normalizeVector (traitVector ++ semanticVector)

end Engine

namespace Engine

/-! Basic algebraic facts about normSq and normalizeVector. -/

theorem normSq_foldl_shift (v : List ℝ) :
    ∀ a : ℝ, v.foldl (fun sum value => sum + value * value) a
      = a + (v.map (fun x => x * x)).sum := by
  induction v with
  | nil => intro a; simp
  | cons x xs ih =>
    intro a
    simp only [List.foldl_cons, List.map_cons, List.sum_cons]
    rw [ih]
    ring

theorem normSq_eq_sum_sq (v : List ℝ) : normSq v = (v.map (fun x => x * x)).sum := by
  unfold normSq
  rw [normSq_foldl_shift]
  ring

theorem normSq_nonneg (v : List ℝ) : 0 ≤ normSq v := by
  rw [normSq_eq_sum_sq]
  apply List.sum_nonneg
  intro x hx
  rcases List.mem_map.mp hx with ⟨y, _, rfl⟩
  exact mul_self_nonneg y

theorem normSq_append (a b : List ℝ) : normSq (a ++ b) = normSq a + normSq b := by
  simp [normSq_eq_sum_sq]

theorem normSq_map_mul (v : List ℝ) (c : ℝ) :
    normSq (v.map (fun x => x * c)) = normSq v * (c * c) := by
  simp only [normSq_eq_sum_sq, List.map_map]
  have h : ((fun x : ℝ => x * x) ∘ fun x : ℝ => x * c) = fun x : ℝ => (x * x) * (c * c) := by
    funext x
    simp [Function.comp]
    ring
  rw [h, List.sum_map_mul_right]

theorem normSq_map_div (v : List ℝ) (c : ℝ) :
    normSq (v.map (fun x => x / c)) = normSq v / (c * c) := by
  have h : ∀ x : ℝ, x / c = x * (1 / c) := by intro x; ring
  have h2 : (fun x : ℝ => x / c) = fun x : ℝ => x * (1 / c) := funext h
  rw [h2, normSq_map_mul]
  ring

theorem normSq_zero_of_all_zero (v : List ℝ) (h : ∀ x ∈ v, x = 0) : normSq v = 0 := by
  rw [normSq_eq_sum_sq]
  apply List.sum_eq_zero
  intro x hx
  rcases List.mem_map.mp hx with ⟨y, hy, rfl⟩
  rw [h y hy]
  ring

theorem normSq_replicate_zero (n : ℕ) : normSq (List.replicate n (0 : ℝ)) = 0 := by
  apply normSq_zero_of_all_zero
  intro x hx
  exact List.eq_of_mem_replicate hx

/-- Normalizing a vector of nonzero norm yields a vector of squared norm 1. -/
theorem normSq_normalizeVector (v : List ℝ) (h : normSq v ≠ 0) :
    normSq (normalizeVector v) = 1 := by
  have hpos : 0 < normSq v := lt_of_le_of_ne (normSq_nonneg v) (Ne.symm h)
  have hs : Real.sqrt (normSq v) ≠ 0 := ne_of_gt (Real.sqrt_pos.mpr hpos)
  unfold normalizeVector
  simp only [hs, if_false]
  rw [normSq_map_div, Real.mul_self_sqrt (le_of_lt hpos), div_self h]

theorem normalizeVector_zero (v : List ℝ) (h : normSq v = 0) :
    normalizeVector v = v := by
  unfold normalizeVector
  simp [h]

theorem length_normalizeVector (v : List ℝ) : (normalizeVector v).length = v.length := by
  unfold normalizeVector
  by_cases h : Real.sqrt (normSq v) = 0 <;> simp [h]

/-- The 10-entry trait block always has strictly positive squared norm:
if openness and conscientiousness are both zero, the second derived
feature (conscientiousness + (1 - openness)) / 2 clamps to 1/2. -/
theorem traitBlock_normSq_pos (t : Traits) :
    0 < normSq ([t.openness, t.conscientiousness, t.extraversion,
      t.agreeableness, t.neuroticism] ++ derivedTraits t) := by
  rw [normSq_append]
  have h5 : normSq [t.openness, t.conscientiousness, t.extraversion,
      t.agreeableness, t.neuroticism]
      = t.openness * t.openness + t.conscientiousness * t.conscientiousness
        + t.extraversion * t.extraversion + t.agreeableness * t.agreeableness
        + t.neuroticism * t.neuroticism := by
    simp [normSq]
  have hd : 0 ≤ normSq (derivedTraits t) := normSq_nonneg _
  by_cases ho : t.openness = 0
  · by_cases hc : t.conscientiousness = 0
    · -- both zero: the second derived feature is clamp (1/2) 0 1 = 1/2
      have hd2 : normSq (derivedTraits t)
          = (clamp ((t.extraversion + t.agreeableness) / 2) 0 1) ^ 2
            + (clamp ((t.conscientiousness + (1 - t.openness)) / 2) 0 1) ^ 2
            + (clamp (1 - t.neuroticism) 0 1) ^ 2
            + (clamp ((t.openness + t.extraversion) / 2) 0 1) ^ 2
            + (clamp ((t.agreeableness + (1 - t.neuroticism)) / 2) 0 1) ^ 2 := by
        simp [derivedTraits, normSq]
        ring
      have hmid : clamp ((t.conscientiousness + (1 - t.openness)) / 2) 0 1 = 1 / 2 := by
        rw [ho, hc]
        unfold clamp
        norm_num
      have hlow : (1 / 2 : ℝ) ^ 2 ≤ normSq (derivedTraits t) := by
        rw [hd2, hmid]
        nlinarith [sq_nonneg (clamp ((t.extraversion + t.agreeableness) / 2) 0 1),
          sq_nonneg (clamp (1 - t.neuroticism) 0 1),
          sq_nonneg (clamp ((t.openness + t.extraversion) / 2) 0 1),
          sq_nonneg (clamp ((t.agreeableness + (1 - t.neuroticism)) / 2) 0 1)]
      nlinarith [normSq_nonneg [t.openness, t.conscientiousness, t.extraversion,
        t.agreeableness, t.neuroticism]]
    · have hcpos : 0 < t.conscientiousness * t.conscientiousness := mul_self_pos.mpr hc
      nlinarith [sq_nonneg t.openness, sq_nonneg t.extraversion,
        sq_nonneg t.agreeableness, sq_nonneg t.neuroticism]
  · have hopos : 0 < t.openness * t.openness := mul_self_pos.mpr ho
    nlinarith [sq_nonneg t.conscientiousness, sq_nonneg t.extraversion,
      sq_nonneg t.agreeableness, sq_nonneg t.neuroticism]

/-- The fused vector always has squared L2 norm exactly 1, whatever the
trait values and the semantic vector (including the all-zero one). -/
theorem buildCombinedVector_normSq (t : Traits) (semantic : List ℝ) :
    normSq (buildCombinedVector t semantic) = 1 := by
  unfold buildCombinedVector
  set B := [t.openness, t.conscientiousness, t.extraversion,
    t.agreeableness, t.neuroticism] ++ derivedTraits t with hB
  have hBpos : 0 < normSq B := traitBlock_normSq_pos t
  have hBunit : normSq (normalizeVector B) = 1 := normSq_normalizeVector B (ne_of_gt hBpos)
  have hTV : normSq ((normalizeVector B).map (fun value => value * TRAIT_WEIGHT))
      = TRAIT_WEIGHT * TRAIT_WEIGHT := by
    rw [normSq_map_mul, hBunit, one_mul]
  by_cases hS : normSq semantic = 0
  · have hSV : normSq ((normalizeVector semantic).map (fun value => value * SEMANTIC_WEIGHT)) = 0 := by
      rw [normalizeVector_zero semantic hS, normSq_map_mul, hS, zero_mul]
    apply normSq_normalizeVector
    rw [normSq_append, hTV, hSV]
    unfold TRAIT_WEIGHT
    norm_num
  · have hSunit : normSq (normalizeVector semantic) = 1 := normSq_normalizeVector semantic hS
    have hSV : normSq ((normalizeVector semantic).map (fun value => value * SEMANTIC_WEIGHT))
        = SEMANTIC_WEIGHT * SEMANTIC_WEIGHT := by
      rw [normSq_map_mul, hSunit, one_mul]
    apply normSq_normalizeVector
    rw [normSq_append, hTV, hSV]
    unfold TRAIT_WEIGHT SEMANTIC_WEIGHT
    norm_num

theorem length_buildCombinedVector (t : Traits) (semantic : List ℝ) :
    (buildCombinedVector t semantic).length = 10 + semantic.length := by
  unfold buildCombinedVector
  rw [length_normalizeVector]
  simp [length_normalizeVector, derivedTraits]

end Engine

namespace Engine

/-! Concrete evaluation of the fused vector at traits (1,0,0,0,1) with an
all-zero semantic vector; all intermediate norms are rational, so the
whole computation stays exact. -/

/-- Example traits: openness 1, neuroticism 1, the rest 0. -/
noncomputable def t0 : Traits := ⟨1, 0, 0, 0, 1⟩

theorem derivedTraits_t0 : derivedTraits t0 = [0, 0, 0, 1/2, 0] := by
  unfold derivedTraits t0 clamp
  norm_num

theorem sqrt_nine_fourths : Real.sqrt ((9 : ℝ)/4) = 3/2 := by
  rw [show (9/4 : ℝ) = (3/2)^2 by norm_num, Real.sqrt_sq (by norm_num : (0:ℝ) ≤ 3/2)]

theorem sqrt_fortynine_hundredths : Real.sqrt ((49 : ℝ)/100) = 7/10 := by
  rw [show (49/100 : ℝ) = (7/10)^2 by norm_num, Real.sqrt_sq (by norm_num : (0:ℝ) ≤ 7/10)]

theorem normalize_block_t0 :
    normalizeVector [(1:ℝ), 0, 0, 0, 1, 0, 0, 0, 1/2, 0]
      = [2/3, 0, 0, 0, 2/3, 0, 0, 0, 1/3, 0] := by
  have hns : normSq [(1:ℝ), 0, 0, 0, 1, 0, 0, 0, 1/2, 0] = 9/4 := by
    norm_num [normSq]
  simp only [normalizeVector, hns, sqrt_nine_fourths]
  norm_num

theorem buildCombined_t0 :
    buildCombinedVector t0 (List.replicate 16 0)
      = [2/3, 0, 0, 0, 2/3, 0, 0, 0, 1/3, 0] ++ List.replicate 16 (0:ℝ) := by
  have hz : normSq (List.replicate 16 (0:ℝ)) = 0 := normSq_replicate_zero 16
  have hnz : normalizeVector (List.replicate 16 (0:ℝ)) = List.replicate 16 0 :=
    normalizeVector_zero _ hz
  have hblock : ([t0.openness, t0.conscientiousness, t0.extraversion,
      t0.agreeableness, t0.neuroticism] ++ derivedTraits t0)
      = [(1:ℝ), 0, 0, 0, 1, 0, 0, 0, 1/2, 0] := by
    rw [derivedTraits_t0]
    unfold t0
    norm_num
  have hm1 : ([(2:ℝ)/3, 0, 0, 0, 2/3, 0, 0, 0, 1/3, 0]).map (fun value => value * TRAIT_WEIGHT)
      = [7/15, 0, 0, 0, 7/15, 0, 0, 0, 7/30, 0] := by
    unfold TRAIT_WEIGHT
    norm_num
  have hm2 : (List.replicate 16 (0:ℝ)).map (fun value => value * SEMANTIC_WEIGHT)
      = List.replicate 16 0 := by
    rw [List.map_replicate]
    norm_num
  have hns2 : normSq ([(7:ℝ)/15, 0, 0, 0, 7/15, 0, 0, 0, 7/30, 0] ++ List.replicate 16 0)
      = 49/100 := by
    rw [normSq_append, normSq_replicate_zero]
    norm_num [normSq]
  unfold buildCombinedVector
  rw [hblock, normalize_block_t0, hnz, hm1, hm2]
  simp only [normalizeVector, hns2, sqrt_fortynine_hundredths]
  norm_num [List.map_append, List.map_replicate]

end Engine

namespace Engine

/-- The stored-vector computation of updateUserVector (vectorStore.ts
lines 215-263): build the candidate fused vector from the incoming traits
and the freshly updated semantic vector; an existing user's stored vector
of matching length is blended entry-wise with
blendFactor = confidence * 0.3 (without renormalization); a new user, or
a stored vector of mismatched length, adopts the candidate outright.  The
semantic vector (built asynchronously by buildSemanticVector from interest
tags and the message embedding) is passed in explicitly, and the stored
user record is the result of the external getUserById lookup. -/
noncomputable def updateUserVectorStored (user : Option User)
    (profileUpdate : ProfileUpdate) (semantic : List ℝ) : List ℝ :=
  let newVector := buildCombinedVector profileUpdate.traits semantic
  match user with
  | some u =>
    let blendFactor := profileUpdate.confidence * 0.3
    if u.vector.length = newVector.length then
      List.zipWith (fun oldVal newVal => oldVal * (1 - blendFactor) + newVal * blendFactor)
        u.vector newVector
    else newVector
  | none => newVector

/-- The stored-vector computation of upsertUserVector (vectorStore.ts
lines 272-278), which is also the rebuild path of initializeVectorStore
(lines 144-153): the vector is recomputed with buildCombinedVector. -/
noncomputable def upsertUserVectorStored (user : User) (semantic : List ℝ) : List ℝ :=
  buildCombinedVector user.traits semantic

/-- Example stored user whose profile vector is the unit vector e1 in 26
dimensions. -/
noncomputable def exUser : User :=
  ⟨"u1", "Student", 20, "University",
   [1, 0, 0, 0, 0, 0, 0, 0, 0, 0] ++ List.replicate 16 0,
   DEFAULT_TRAITS, [], 0⟩

/-- Example per-turn profile update: traits (1,0,0,0,1) at confidence 1. -/
noncomputable def exUpdate : ProfileUpdate := ⟨t0, [], 1⟩

/-- Claim C1 counterexample: starting from a stored unit vector, the
per-turn update of updateUserVector (existing-user branch, confidence 1,
hence blendFactor 0.3) stores a vector of squared L2 norm 86/100 ≠ 1 —
the blended vector is not renormalized, so the claimed norm-1 invariant
fails after this write even though the vector is not all-zero. -/
theorem C1_counterexample :
    normSq exUser.vector = 1 ∧
    normSq (updateUserVectorStored (some exUser) exUpdate (List.replicate 16 0)) = 86/100 ∧
    (86/100 : ℝ) ≠ 1 := by
  refine ⟨?_, ?_, by norm_num⟩
  · show normSq ([1, 0, 0, 0, 0, 0, 0, 0, 0, 0] ++ List.replicate 16 0) = 1
    rw [normSq_append, normSq_replicate_zero]
    norm_num [normSq]
  · have hblend : updateUserVectorStored (some exUser) exUpdate (List.replicate 16 0)
        = [(9:ℝ)/10, 0, 0, 0, 1/5, 0, 0, 0, 1/10, 0] ++ List.replicate 16 0 := by
      simp only [updateUserVectorStored, exUser, exUpdate, buildCombined_t0]
      rw [if_pos (by simp)]
      rw [List.zipWith_append _ _ _ _ _ (by norm_num)]
      rw [List.zipWith_replicate']
      norm_num
    rw [hblend, normSq_append, normSq_replicate_zero]
    norm_num [normSq]

/-- Claim C1 (amended): every write that stores a freshly fused vector —
the new-user branch of updateUserVector, upsertUserVector, and the rebuild
path of initializeVectorStore — stores a vector of squared L2 norm exactly
1; the existing-user branch of updateUserVector instead stores the
unrenormalized blend old*(1-blendFactor) + new*blendFactor, whose norm can
drop below 1 (see the counterexample). -/
theorem C1_amended_unit_writes (pu : ProfileUpdate) (u : User)
    (semantic semantic2 : List ℝ) :
    normSq (updateUserVectorStored none pu semantic) = 1 ∧
    normSq (upsertUserVectorStored u semantic2) = 1 := by
  constructor
  · show normSq (buildCombinedVector pu.traits semantic) = 1
    exact buildCombinedVector_normSq _ _
  · exact buildCombinedVector_normSq _ _

/-- The all-zero trait profile. -/
noncomputable def zeroTraits : Traits := ⟨0, 0, 0, 0, 0⟩

/-- Claim C3 counterexample: with both inputs zero (all five traits 0 and
the 16-dimensional semantic vector all-zero), buildCombinedVector does NOT
return the zero vector — it returns a unit vector (squared norm 1), because
the derived composite features of the all-zero trait profile are nonzero
(e.g. clamp((conscientiousness + (1 - openness))/2) = 1/2). -/
theorem C3_counterexample :
    normSq (buildCombinedVector zeroTraits (List.replicate 16 0)) = 1 ∧
    buildCombinedVector zeroTraits (List.replicate 16 0) ≠ List.replicate 26 (0:ℝ) := by
  refine ⟨buildCombinedVector_normSq _ _, ?_⟩
  intro h
  have h1 := buildCombinedVector_normSq zeroTraits (List.replicate 16 0)
  rw [h, normSq_replicate_zero] at h1
  norm_num at h1

/-- Claim C3 (amended): the fused ProfileVector returned by
buildCombinedVector has L2 norm exactly 1 for every input — including the
degenerate case where both the trait profile and the semantic vector are
zero, where it still returns a unit vector rather than the zero vector. -/
theorem C3_fuse_unit (t : Traits) (semantic : List ℝ) :
    l2norm (buildCombinedVector t semantic) = 1 := by
  unfold l2norm
  rw [buildCombinedVector_normSq]
  exact Real.sqrt_one

/-- Claim C10: for every trait profile with all five traits in [0,1] and
every 16-dimensional semantic vector (including the all-zero one), the
fused vector has L2 norm exactly 1 and is never the zero vector; the
10-entry trait block itself can never be all-zero (its squared norm is
nonzero). -/
theorem C10_fused_always_unit (t : Traits) (semantic : List ℝ)
    (ho : 0 ≤ t.openness ∧ t.openness ≤ 1)
    (hc : 0 ≤ t.conscientiousness ∧ t.conscientiousness ≤ 1)
    (he : 0 ≤ t.extraversion ∧ t.extraversion ≤ 1)
    (ha : 0 ≤ t.agreeableness ∧ t.agreeableness ≤ 1)
    (hn : 0 ≤ t.neuroticism ∧ t.neuroticism ≤ 1)
    (hsem : semantic.length = SEMANTIC_DIM) :
    l2norm (buildCombinedVector t semantic) = 1 ∧
    (buildCombinedVector t semantic).length = 26 ∧
    buildCombinedVector t semantic ≠ List.replicate 26 (0:ℝ) ∧
    normSq ([t.openness, t.conscientiousness, t.extraversion,
      t.agreeableness, t.neuroticism] ++ derivedTraits t) ≠ 0 := by
  refine ⟨?_, ?_, ?_, ne_of_gt (traitBlock_normSq_pos t)⟩
  · unfold l2norm
    rw [buildCombinedVector_normSq]
    exact Real.sqrt_one
  · rw [length_buildCombinedVector, hsem]
    rfl
  · intro hcontra
    have h1 := buildCombinedVector_normSq t semantic
    rw [hcontra, normSq_replicate_zero] at h1
    norm_num at h1

/-- Claim C10 witness: the default trait profile (all 0.5) and the all-zero
16-dimensional semantic vector satisfy the hypotheses, and the fused vector
is a unit vector distinct from the zero vector. -/
theorem C10_witness :
    ((0:ℝ) ≤ DEFAULT_TRAITS.openness ∧ DEFAULT_TRAITS.openness ≤ 1) ∧
    (List.replicate 16 (0:ℝ)).length = SEMANTIC_DIM ∧
    (l2norm (buildCombinedVector DEFAULT_TRAITS (List.replicate 16 0)) = 1 ∧
     (buildCombinedVector DEFAULT_TRAITS (List.replicate 16 0)).length = 26 ∧
     buildCombinedVector DEFAULT_TRAITS (List.replicate 16 0) ≠ List.replicate 26 (0:ℝ) ∧
     normSq ([DEFAULT_TRAITS.openness, DEFAULT_TRAITS.conscientiousness,
       DEFAULT_TRAITS.extraversion, DEFAULT_TRAITS.agreeableness,
       DEFAULT_TRAITS.neuroticism] ++ derivedTraits DEFAULT_TRAITS) ≠ 0) :=
  ⟨by norm_num [DEFAULT_TRAITS], by simp [SEMANTIC_DIM],
   C10_fused_always_unit DEFAULT_TRAITS (List.replicate 16 0)
     (by norm_num [DEFAULT_TRAITS]) (by norm_num [DEFAULT_TRAITS])
     (by norm_num [DEFAULT_TRAITS]) (by norm_num [DEFAULT_TRAITS])
     (by norm_num [DEFAULT_TRAITS]) (by simp [SEMANTIC_DIM])⟩

end Engine

namespace Engine

/-- Distinct throw sites of the engine: the not-found throw of
getKNearestNeighbors and the length-mismatch throw of cosineSimilarity. -/
inductive EngineError where
  | notFound : String → EngineError
  | lengthMismatch : EngineError
deriving DecidableEq

/-- cosineSimilarity of vectorStore.ts (lines 161-180): throws when the
lengths differ; one loop accumulates the dot product and both squared
norms; if the product of the square roots is 0 the result is 0, otherwise
the dot product divided by that product. -/
noncomputable def cosineSimilarity (a b : List ℝ) : Except EngineError ℝ :=
  if a.length ≠ b.length then .error .lengthMismatch
  else
    let dotProduct := (List.zipWith (fun x y => x * y) a b).sum
    let magnitude := Real.sqrt (normSq a) * Real.sqrt (normSq b)
    if magnitude = 0 then .ok 0 else .ok (dotProduct / magnitude)

/-- Claim C5: cosineSimilarity errors exactly when the lengths differ; for
equal lengths it returns 0 (not an error) whenever either vector has zero
L2 norm, and otherwise the dot product over the product of the L2 norms. -/
theorem C5_cosine_contract (a b : List ℝ) :
    (cosineSimilarity a b = .error .lengthMismatch ↔ a.length ≠ b.length) ∧
    (a.length = b.length → (l2norm a = 0 ∨ l2norm b = 0) →
      cosineSimilarity a b = .ok 0) ∧
    (a.length = b.length → l2norm a ≠ 0 → l2norm b ≠ 0 →
      cosineSimilarity a b
        = .ok ((List.zipWith (fun x y => x * y) a b).sum / (l2norm a * l2norm b))) := by
  refine ⟨?_, ?_, ?_⟩
  · constructor
    · intro h
      by_contra hlen
      unfold cosineSimilarity at h
      rw [if_neg (show ¬(a.length ≠ b.length) by simp [hlen])] at h
      by_cases hm : Real.sqrt (normSq a) * Real.sqrt (normSq b) = 0 <;>
        simp [hm] at h
    · intro hlen
      unfold cosineSimilarity
      rw [if_pos hlen]
  · intro hlen hzero
    unfold cosineSimilarity
    rw [if_neg (show ¬(a.length ≠ b.length) by simp [hlen])]
    have hm : Real.sqrt (normSq a) * Real.sqrt (normSq b) = 0 := by
      rcases hzero with hz | hz
      · rw [show Real.sqrt (normSq a) = l2norm a from rfl, hz, zero_mul]
      · rw [show Real.sqrt (normSq b) = l2norm b from rfl, hz, mul_zero]
    simp [hm]
  · intro hlen hna hnb
    unfold cosineSimilarity
    rw [if_neg (show ¬(a.length ≠ b.length) by simp [hlen])]
    have hm : Real.sqrt (normSq a) * Real.sqrt (normSq b) ≠ 0 :=
      mul_ne_zero hna hnb
    simp only [hm, if_false]
    rfl

/-- Claim C5 witness: on the equal-length vectors [1,0] and [0,1], both
norms are 1 and cosineSimilarity returns the dot product over their
product; moreover the error-iff-length clause is instantiated. -/
theorem C5_witness :
    (([(1:ℝ), 0]).length = ([(0:ℝ), 1]).length) ∧
    l2norm [(1:ℝ), 0] ≠ 0 ∧ l2norm [(0:ℝ), 1] ≠ 0 ∧
    cosineSimilarity [(1:ℝ), 0] [(0:ℝ), 1]
      = .ok ((List.zipWith (fun x y => x * y) [(1:ℝ), 0] [(0:ℝ), 1]).sum
          / (l2norm [(1:ℝ), 0] * l2norm [(0:ℝ), 1])) := by
  have h1 : l2norm [(1:ℝ), 0] ≠ 0 := by
    unfold l2norm
    rw [show normSq [(1:ℝ), 0] = 1 by norm_num [normSq], Real.sqrt_one]
    norm_num
  have h2 : l2norm [(0:ℝ), 1] ≠ 0 := by
    unfold l2norm
    rw [show normSq [(0:ℝ), 1] = 1 by norm_num [normSq], Real.sqrt_one]
    norm_num
  exact ⟨rfl, h1, h2, ((C5_cosine_contract [1, 0] [0, 1]).2.2 rfl h1 h2)⟩

end Engine

namespace Engine

theorem exceptOkBind {α β : Type} (a : α) (f : α → Except EngineError β) :
    (Except.ok a >>= f : Except EngineError β) = f a := rfl

theorem exceptErrorBind {α β : Type} (e : EngineError) (f : α → Except EngineError β) :
    (Except.error e >>= f : Except EngineError β) = Except.error e := rfl

/-- The similarity-collection loop of getKNearestNeighbors (vectorStore.ts
lines 197-204): walk the vector index in its insertion order, skip the
query id, and push (otherId, cosineSimilarity userVector otherVector);
a thrown length mismatch propagates. -/
noncomputable def computeSims (userId : String) (userVector : List ℝ) :
    List (String × List ℝ) → Except EngineError (List (String × ℝ))
  | [] => .ok []
  | (otherId, otherVector) :: rest =>
    if otherId ≠ userId then do
      let sim ← cosineSimilarity userVector otherVector
      let tail ← computeSims userId userVector rest
      pure ((otherId, sim) :: tail)
    else computeSims userId userVector rest

/-- One step of stable insertion: an element already in place stays ahead
of x only if its similarity is strictly greater, so ties keep their
original relative order — exactly the order JavaScript's stable
Array.prototype.sort produces for the comparator
(a, b) => b.similarity - a.similarity. -/
noncomputable def sortInsert (x : String × ℝ) : List (String × ℝ) → List (String × ℝ)
  | [] => [x]
  | y :: ys => if x.2 < y.2 then y :: sortInsert x ys else x :: y :: ys

/-- Stable sort by descending similarity (the similarities.sort call of
getKNearestNeighbors). -/
noncomputable def sortBySimDesc : List (String × ℝ) → List (String × ℝ)
  | [] => []
  | x :: xs => sortInsert x (sortBySimDesc xs)

/-- getKNearestNeighbors of vectorStore.ts (lines 186-209): look the query
id up in the vector index (throwing notFound when absent), collect the
similarities to every other entry, sort descending and take the first k.
The vector index (a JS Map in insertion order) is passed explicitly. -/
noncomputable def getKNearestNeighbors (index : List (String × List ℝ))
    (userId : String) (k : ℕ) : Except EngineError (List (String × ℝ)) :=
  match index.lookup userId with
  | none => .error (.notFound userId)
  | some userVector =>
    (computeSims userId userVector index).map
      (fun similarities => (sortBySimDesc similarities).take k)

theorem cosineSimilarity_error (a b : List ℝ) (e : EngineError)
    (h : cosineSimilarity a b = .error e) : e = .lengthMismatch := by
  unfold cosineSimilarity at h
  by_cases h1 : a.length ≠ b.length
  · rw [if_pos h1] at h
    cases h
    rfl
  · rw [if_neg h1] at h
    by_cases h2 : Real.sqrt (normSq a) * Real.sqrt (normSq b) = 0 <;>
      simp [h2] at h

theorem computeSims_error (userId : String) (uv : List ℝ) :
    ∀ (index : List (String × List ℝ)) (e : EngineError),
      computeSims userId uv index = .error e → e = .lengthMismatch := by
  intro index
  induction index with
  | nil =>
    intro e h
    simp [computeSims] at h
  | cons p rest ih =>
    intro e h
    rcases p with ⟨otherId, otherVector⟩
    unfold computeSims at h
    by_cases hid : otherId ≠ userId
    · rw [if_pos hid] at h
      cases hcs : cosineSimilarity uv otherVector with
      | error e2 =>
        rw [hcs, exceptErrorBind] at h
        cases h
        exact cosineSimilarity_error _ _ _ hcs
      | ok s =>
        rw [hcs, exceptOkBind] at h
        cases hrest : computeSims userId uv rest with
        | error e3 =>
          rw [hrest, exceptErrorBind] at h
          cases h
          exact ih _ hrest
        | ok tail =>
          rw [hrest, exceptOkBind] at h
          simp [pure, Except.pure] at h
    · rw [if_neg hid] at h
      exact ih _ h

theorem computeSims_mem (userId : String) (uv : List ℝ) :
    ∀ (index : List (String × List ℝ)) (sims : List (String × ℝ)),
      computeSims userId uv index = .ok sims → ∀ p ∈ sims, p.1 ≠ userId := by
  intro index
  induction index with
  | nil =>
    intro sims h p hp
    simp [computeSims] at h
    rw [h] at hp
    simp at hp
  | cons q rest ih =>
    intro sims h p hp
    rcases q with ⟨otherId, otherVector⟩
    unfold computeSims at h
    by_cases hid : otherId ≠ userId
    · rw [if_pos hid] at h
      cases hcs : cosineSimilarity uv otherVector with
      | error e2 =>
        rw [hcs, exceptErrorBind] at h
        cases h
      | ok s =>
        rw [hcs, exceptOkBind] at h
        cases hrest : computeSims userId uv rest with
        | error e3 =>
          rw [hrest, exceptErrorBind] at h
          cases h
        | ok tail =>
          rw [hrest, exceptOkBind] at h
          simp only [pure, Except.pure] at h
          cases h
          rcases List.mem_cons.mp hp with hp1 | hp2
          · rw [hp1]
            exact hid
          · exact ih tail hrest p hp2
    · rw [if_neg hid] at h
      exact ih sims h p hp

theorem sortInsert_perm (x : String × ℝ) (l : List (String × ℝ)) :
    List.Perm (sortInsert x l) (x :: l) := by
  induction l with
  | nil => simp [sortInsert]
  | cons y ys ih =>
    by_cases hc : x.2 < y.2
    · simp only [sortInsert, if_pos hc]
      exact (ih.cons y).trans (List.Perm.swap x y ys)
    · simp only [sortInsert, if_neg hc]
      exact List.Perm.refl _

theorem sortBySimDesc_perm (l : List (String × ℝ)) :
    List.Perm (sortBySimDesc l) l := by
  induction l with
  | nil => simp [sortBySimDesc]
  | cons x xs ih =>
    exact (sortInsert_perm x (sortBySimDesc xs)).trans (ih.cons x)

theorem sortInsert_pairwise (x : String × ℝ) (l : List (String × ℝ))
    (h : List.Pairwise (fun p q => q.2 ≤ p.2) l) :
    List.Pairwise (fun p q => q.2 ≤ p.2) (sortInsert x l) := by
  induction l with
  | nil => simp [sortInsert]
  | cons y ys ih =>
    rw [List.pairwise_cons] at h
    by_cases hc : x.2 < y.2
    · simp only [sortInsert, if_pos hc]
      rw [List.pairwise_cons]
      constructor
      · intro q hq
        have hq2 : q ∈ x :: ys := (sortInsert_perm x ys).subset hq
        rcases List.mem_cons.mp hq2 with h1 | h2
        · rw [h1]
          exact le_of_lt hc
        · exact h.1 q h2
      · exact ih h.2
    · simp only [sortInsert, if_neg hc]
      rw [List.pairwise_cons]
      constructor
      · intro q hq
        rcases List.mem_cons.mp hq with h1 | h2
        · rw [h1]
          exact le_of_not_lt hc
        · exact le_trans (h.1 q h2) (le_of_not_lt hc)
      · rw [List.pairwise_cons]
        exact h
    
theorem sortBySimDesc_pairwise (l : List (String × ℝ)) :
    List.Pairwise (fun p q => q.2 ≤ p.2) (sortBySimDesc l) := by
  induction l with
  | nil => simp [sortBySimDesc]
  | cons x xs ih => exact sortInsert_pairwise x (sortBySimDesc xs) ih

theorem getKNN_eq_none (index : List (String × List ℝ)) (userId : String) (k : ℕ)
    (h : index.lookup userId = none) :
    getKNearestNeighbors index userId k = .error (.notFound userId) := by
  unfold getKNearestNeighbors
  rw [h]

theorem getKNN_eq_some (index : List (String × List ℝ)) (userId : String) (k : ℕ)
    (uv : List ℝ) (h : index.lookup userId = some uv) :
    getKNearestNeighbors index userId k
      = (computeSims userId uv index).map
          (fun similarities => (sortBySimDesc similarities).take k) := by
  unfold getKNearestNeighbors
  rw [h]

/-- Claim C2 (amended): getKNearestNeighbors fails with notFound exactly
when the query id has no stored vector; on success the result is the first
k entries of the similarity list sorted by non-increasing similarity
(ties retain the index insertion order of the stable sort, not ascending
id — see the counterexample) and never contains the query id itself. -/
theorem C2_knn_contract (index : List (String × List ℝ)) (userId : String) (k : ℕ) :
    (getKNearestNeighbors index userId k = .error (.notFound userId)
      ↔ index.lookup userId = none) ∧
    (∀ userVector l, index.lookup userId = some userVector →
      getKNearestNeighbors index userId k = .ok l →
      ∃ sims, computeSims userId userVector index = .ok sims ∧
        l = (sortBySimDesc sims).take k ∧
        (∀ p ∈ l, p.1 ≠ userId) ∧
        List.Pairwise (fun p q => q.2 ≤ p.2) l) := by
  constructor
  · constructor
    · intro h
      cases hl : index.lookup userId with
      | none => rfl
      | some uv =>
        exfalso
        rw [getKNN_eq_some index userId k uv hl] at h
        cases hcs : computeSims userId uv index with
        | error e =>
          rw [hcs] at h
          simp [Except.map] at h
          have he : e = .lengthMismatch := computeSims_error userId uv index e hcs
          rw [he] at h
          cases h
        | ok sims =>
          rw [hcs] at h
          simp [Except.map] at h
    · intro h
      exact getKNN_eq_none index userId k h
  · intro uv l hl hok
    rw [getKNN_eq_some index userId k uv hl] at hok
    cases hcs : computeSims userId uv index with
    | error e =>
      rw [hcs] at hok
      simp [Except.map] at hok
    | ok sims =>
      rw [hcs] at hok
      simp only [Except.map] at hok
      cases hok
      refine ⟨sims, rfl, rfl, ?_, ?_⟩
      · intro p hp
        have hp2 : p ∈ sortBySimDesc sims := List.take_subset k _ hp
        have hp3 : p ∈ sims := (sortBySimDesc_perm sims).subset hp2
        exact computeSims_mem userId uv index sims hcs p hp3
      · exact (sortBySimDesc_pairwise sims).sublist (List.take_sublist k _)

end Engine

namespace Engine

theorem cosine_e1_e2 : cosineSimilarity [(1:ℝ), 0] [(0:ℝ), 1] = .ok 0 := by
  simp [cosineSimilarity, normSq]

theorem knn_eval_two :
    getKNearestNeighbors [("q", [(1:ℝ), 0]), ("a", [0, 1])] "q" 1 = .ok [("a", 0)] := by
  rw [getKNN_eq_some _ _ _ [(1:ℝ), 0] (by simp [List.lookup])]
  have h : computeSims "q" [(1:ℝ), 0] [("q", [(1:ℝ), 0]), ("a", [0, 1])] = .ok [("a", 0)] := by
    simp [computeSims, cosine_e1_e2, exceptOkBind]
  rw [h]
  simp [Except.map, sortBySimDesc, sortInsert]

theorem knn_eval_three :
    getKNearestNeighbors [("q", [(1:ℝ), 0]), ("b", [0, 1]), ("a", [0, 1])] "q" 2
      = .ok [("b", 0), ("a", 0)] := by
  rw [getKNN_eq_some _ _ _ [(1:ℝ), 0] (by simp [List.lookup])]
  have h : computeSims "q" [(1:ℝ), 0] [("q", [(1:ℝ), 0]), ("b", [0, 1]), ("a", [0, 1])]
      = .ok [("b", 0), ("a", 0)] := by
    simp [computeSims, cosine_e1_e2, exceptOkBind]
  rw [h]
  have hs : sortBySimDesc [(("b" : String), (0:ℝ)), ("a", 0)] = [("b", 0), ("a", 0)] := by
    simp [sortBySimDesc, sortInsert]
  simp [Except.map, hs]

/-- Claim C2 counterexample: with the index in insertion order
q, b, a and equal similarities for b and a, getKNearestNeighbors returns
[(b, 0), (a, 0)] — the stable sort keeps the insertion order on ties, so
the claimed deterministic tie-break by ascending id (which would give
[(a, 0), (b, 0)]) does not hold. -/
theorem C2_counterexample :
    getKNearestNeighbors [("q", [(1:ℝ), 0]), ("b", [0, 1]), ("a", [0, 1])] "q" 2
      = .ok [("b", 0), ("a", 0)] ∧
    getKNearestNeighbors [("q", [(1:ℝ), 0]), ("b", [0, 1]), ("a", [0, 1])] "q" 2
      ≠ .ok [("a", 0), ("b", 0)] := by
  refine ⟨knn_eval_three, ?_⟩
  rw [knn_eval_three]
  simp

/-- Claim C2 witness: on a two-user index the contract theorem applies with
the lookup and evaluation hypotheses discharged concretely. -/
theorem C2_witness :
    ∃ sims, computeSims "q" [(1:ℝ), 0] [("q", [(1:ℝ), 0]), ("a", [0, 1])] = .ok sims ∧
      [(("a" : String), (0:ℝ))] = (sortBySimDesc sims).take 1 ∧
      (∀ p ∈ [(("a" : String), (0:ℝ))], p.1 ≠ "q") ∧
      List.Pairwise (fun p q => q.2 ≤ p.2) [(("a" : String), (0:ℝ))] :=
  (C2_knn_contract [("q", [(1:ℝ), 0]), ("a", [0, 1])] "q" 1).2 [(1:ℝ), 0] [("a", 0)]
    (by simp [List.lookup]) knn_eval_two

end Engine

namespace Engine

/-- Rounding to three decimals: parseFloat(x.toFixed(3)) of the match
routes, modelled as round-half-up at the third decimal. -/
noncomputable def round3 (x : ℝ) : ℝ := ((round (x * 1000) : ℤ) : ℝ) / 1000

/-- The dimensions array of the match-explanation routes. -/
def matchDimensionNames : List String :=
  ["openness", "conscientiousness", "extraversion", "agreeableness", "neuroticism"]

/-- The per-trait-dimension contribution list of the match-explanation
routes (app/api/graph/match/[id1]/[id2]/route.ts lines 38-43 and
backend/src/routes/graph.ts lines 148-153): the five entries carry trait
names, but the values are read from the stored profile VECTORS at indices
0..4, and each contribution (1 - |a-b|) * a * b is rounded to 3 decimals. -/
noncomputable def matchTraitContributions (user1 user2 : User) : List (String × ℝ) :=
  matchDimensionNames.enum.map (fun p =>
    let diff := |user1.vector.getD p.1 0 - user2.vector.getD p.1 0|
    (p.2, round3 ((1 - diff) * user1.vector.getD p.1 0 * user2.vector.getD p.1 0)))

/-- Spec-side formula of claim C4: the per-dimension contribution
(1 - |a_i - b_i|) * a_i * b_i computed from the RAW trait dimension values
of the two people, as the claim states it. -/
noncomputable def rawTraitContribution (a b : ℝ) : ℝ := (1 - |a - b|) * a * b

/-- Claim C4 (amended): the match explanation computes its five trait-named
contributions positionally from the first five components of the stored
profile vectors (which hold the normalized, trait-weighted fused values,
not the raw trait dimension values) as round3((1 - |a_i - b_i|) * a_i * b_i). -/
theorem C4_contribution_formula (user1 user2 : User) (i : ℕ) (h : i < 5) :
    (matchTraitContributions user1 user2).getD i ("", 0)
      = (matchDimensionNames.getD i "",
         round3 ((1 - |user1.vector.getD i 0 - user2.vector.getD i 0|)
           * user1.vector.getD i 0 * user2.vector.getD i 0)) := by
  interval_cases i <;> rfl

/-- Claim C4 witness: the formula theorem instantiated at dimension 0 for
a concrete user. -/
theorem C4_witness :
    0 < 5 ∧
    (matchTraitContributions exUser exUser).getD 0 ("", 0)
      = (matchDimensionNames.getD 0 "",
         round3 ((1 - |exUser.vector.getD 0 0 - exUser.vector.getD 0 0|)
           * exUser.vector.getD 0 0 * exUser.vector.getD 0 0)) :=
  ⟨by norm_num, C4_contribution_formula exUser exUser 0 (by norm_num)⟩

/-- Example user whose traits are t0 = (1,0,0,0,1) and whose stored vector
is the corresponding fused profile vector (the state updateUserVector
creates for a new user). -/
noncomputable def exUser2 : User :=
  ⟨"u2", "Student", 20, "University",
   buildCombinedVector t0 (List.replicate 16 0), t0, [], 1⟩

theorem round_4000_ninths : round ((4:ℝ)/9 * 1000) = 444 := by
  rw [round_eq, Int.floor_eq_iff]
  norm_num

/-- Claim C4 counterexample: for a user with raw openness 1 (traits
(1,0,0,0,1), fused vector stored), the route computes the openness
contribution from the profile-vector entry 2/3, yielding
round3((1-0) * 2/3 * 2/3) = 0.444, whereas the claimed formula on the raw
trait dimension values gives (1-0) * 1 * 1 = 1 — so the contributions are
not computed from the raw trait dimension values. -/
theorem C4_counterexample :
    ((matchTraitContributions exUser2 exUser2).getD 0 ("", 0)).2 = 444/1000 ∧
    rawTraitContribution exUser2.traits.openness exUser2.traits.openness = 1 ∧
    (444/1000 : ℝ) ≠ 1 := by
  refine ⟨?_, ?_, by norm_num⟩
  · have h0 : exUser2.vector.getD 0 0 = 2/3 := by
      rw [show exUser2.vector
          = [2/3, 0, 0, 0, 2/3, 0, 0, 0, 1/3, 0] ++ List.replicate 16 (0:ℝ)
        from buildCombined_t0]
      rfl
    have hfirst : ((matchTraitContributions exUser2 exUser2).getD 0 ("", 0)).2
        = round3 ((1 - |exUser2.vector.getD 0 0 - exUser2.vector.getD 0 0|)
            * exUser2.vector.getD 0 0 * exUser2.vector.getD 0 0) := rfl
    rw [hfirst, h0]
    rw [show (1 - |(2:ℝ)/3 - 2/3|) * (2/3) * (2/3) = 4/9 by
      rw [sub_self, abs_zero]; norm_num]
    unfold round3
    rw [round_4000_ninths]
    norm_num
  · show rawTraitContribution 1 1 = 1
    unfold rawTraitContribution
    rw [sub_self, abs_zero]
    norm_num

end Engine

namespace Engine

/-- The base-traits resolution of buildProfileUpdateFromSignals:
user?.traits || DEFAULT_TRAITS. -/
def baseTraitsOf : Option User → Traits
  | some u => u.traits
  | none => DEFAULT_TRAITS

/-- The signal loop of buildProfileUpdateFromSignals (vectorStore.ts lines
298-304): fold over the signal entries in object order; unknown signal
names are skipped; each (trait, weight) pair of a known name adds
value * weight to that trait's delta. -/
noncomputable def traitDeltas (signals : List (String × ℝ)) : Traits :=
  signals.foldl
    (fun acc entry =>
      match SIGNAL_TO_TRAIT_WEIGHTS entry.1 with
      | none => acc
      | some weights => weights.foldl (fun a w => a.addTo w.1 (entry.2 * w.2)) acc)
    ⟨0, 0, 0, 0, 0⟩

/-- buildProfileUpdateFromSignals of vectorStore.ts (lines 283-320): the
apply_signals operation.  Each trait becomes
clamp(base + delta * (clamp(confidence,0,1) * 0.2), 0, 1); the stored user
record (getUserById) is passed explicitly, and the returned interests
record is empty. -/
noncomputable def buildProfileUpdateFromSignals (user : Option User)
    (signals : List (String × ℝ)) (confidence : ℝ) : ProfileUpdate :=
  let baseTraits := baseTraitsOf user
  let deltas := traitDeltas signals
  let step := clamp confidence 0 1 * 0.2
  ⟨⟨clamp (baseTraits.openness + deltas.openness * step) 0 1,
    clamp (baseTraits.conscientiousness + deltas.conscientiousness * step) 0 1,
    clamp (baseTraits.extraversion + deltas.extraversion * step) 0 1,
    clamp (baseTraits.agreeableness + deltas.agreeableness * step) 0 1,
    clamp (baseTraits.neuroticism + deltas.neuroticism * step) 0 1⟩,
   [], clamp confidence 0 1⟩

/-- Claim C6: every trait of the profile returned by
buildProfileUpdateFromSignals lies in [0,1], for every stored profile,
every signal map (unknown names included) and every confidence in [0,1]. -/
theorem C6_traits_bounded (user : Option User) (signals : List (String × ℝ))
    (confidence : ℝ) (hconf : 0 ≤ confidence ∧ confidence ≤ 1) (t : TraitName) :
    0 ≤ ((buildProfileUpdateFromSignals user signals confidence).traits).get t ∧
    ((buildProfileUpdateFromSignals user signals confidence).traits).get t ≤ 1 := by
  have hcl : ∀ x : ℝ, 0 ≤ clamp x 0 1 ∧ clamp x 0 1 ≤ 1 := by
    intro x
    unfold clamp
    exact ⟨le_min (le_max_right x 0) zero_le_one, min_le_right _ _⟩
  cases t <;> exact hcl _

/-- Claim C6 witness: concrete instantiation at an empty store, one known
signal of magnitude 0.4 and confidence one half. -/
theorem C6_witness :
    ((0:ℝ) ≤ 1/2 ∧ (1/2:ℝ) ≤ 1) ∧
    (0 ≤ ((buildProfileUpdateFromSignals none [("social_energy", 0.4)] (1/2)).traits).get
        .extraversion ∧
     ((buildProfileUpdateFromSignals none [("social_energy", 0.4)] (1/2)).traits).get
        .extraversion ≤ 1) :=
  ⟨⟨by norm_num, by norm_num⟩,
   C6_traits_bounded none [("social_energy", 0.4)] (1/2)
     ⟨by norm_num, by norm_num⟩ .extraversion⟩

end Engine

namespace Engine

/-- Summed weight that a single signal's weight list contributes to one
trait (each trait occurs at most once per signal in the table). -/
noncomputable def weightSumFor (ws : List (TraitName × ℝ)) (t : TraitName) : ℝ :=
  (ws.map (fun w => if w.1 = t then w.2 else 0)).sum

/-- Weight that one signal name contributes to a trait; 0 for names
outside the table. -/
noncomputable def weightFor (s : String) (t : TraitName) : ℝ :=
  weightSumFor ((SIGNAL_TO_TRAIT_WEIGHTS s).getD []) t

/-- Total absolute weight touching one trait across the whole
SIGNAL_TO_TRAIT_WEIGHTS table: the bound of the specification. -/
noncomputable def traitWeightSum (t : TraitName) : ℝ :=
  (SIGNAL_NAMES.map (fun s => |weightFor s t|)).sum

theorem get_addTo (a : Traits) (n t : TraitName) (x : ℝ) :
    (a.addTo n x).get t = a.get t + (if n = t then x else 0) := by
  cases n <;> cases t <;> simp [Traits.addTo, Traits.get]

theorem foldl_addTo_get (v : ℝ) (t : TraitName) :
    ∀ (ws : List (TraitName × ℝ)) (acc : Traits),
      ((ws.foldl (fun a w => a.addTo w.1 (v * w.2)) acc).get t)
        = acc.get t + v * weightSumFor ws t := by
  intro ws
  induction ws with
  | nil =>
    intro acc
    simp [weightSumFor]
  | cons w rest ih =>
    intro acc
    simp only [List.foldl_cons]
    rw [ih, get_addTo]
    simp only [weightSumFor, List.map_cons, List.sum_cons]
    by_cases h : w.1 = t
    · rw [if_pos h, if_pos h]
      simp only [weightSumFor] at ih ⊢
      ring
    · rw [if_neg h, if_neg h]
      simp only [weightSumFor] at ih ⊢
      ring

theorem traitDeltas_get_aux (t : TraitName) :
    ∀ (signals : List (String × ℝ)) (acc : Traits),
      ((signals.foldl
          (fun acc entry =>
            match SIGNAL_TO_TRAIT_WEIGHTS entry.1 with
            | none => acc
            | some weights => weights.foldl (fun a w => a.addTo w.1 (entry.2 * w.2)) acc)
          acc).get t)
        = acc.get t + (signals.map (fun p => p.2 * weightFor p.1 t)).sum := by
  intro signals
  induction signals with
  | nil =>
    intro acc
    simp
  | cons p rest ih =>
    intro acc
    simp only [List.foldl_cons, List.map_cons, List.sum_cons]
    rw [ih]
    cases hw : SIGNAL_TO_TRAIT_WEIGHTS p.1 with
    | none =>
      unfold weightFor
      rw [hw]
      simp [weightSumFor]
    | some ws =>
      rw [foldl_addTo_get]
      unfold weightFor
      rw [hw]
      simp only [Option.getD_some]
      ring

theorem traitDeltas_get (t : TraitName) (signals : List (String × ℝ)) :
    (traitDeltas signals).get t
      = (signals.map (fun p => p.2 * weightFor p.1 t)).sum := by
  unfold traitDeltas
  rw [traitDeltas_get_aux]
  cases t <;> simp [Traits.get]

theorem abs_weighted_sum_le (t : TraitName) (signals : List (String × ℝ))
    (hsig : ∀ p ∈ signals, |p.2| ≤ 1/2) :
    |(signals.map (fun p => p.2 * weightFor p.1 t)).sum|
      ≤ (1/2) * (signals.map (fun p => |weightFor p.1 t|)).sum := by
  induction signals with
  | nil => simp
  | cons p rest ih =>
    simp only [List.map_cons, List.sum_cons]
    have h1 : |p.2 * weightFor p.1 t| ≤ (1/2) * |weightFor p.1 t| := by
      rw [abs_mul]
      exact mul_le_mul_of_nonneg_right (hsig p (List.mem_cons_self p rest)) (abs_nonneg _)
    have h2 := ih (fun q hq => hsig q (List.mem_cons_of_mem p hq))
    calc |p.2 * weightFor p.1 t + (rest.map (fun p => p.2 * weightFor p.1 t)).sum|
        ≤ |p.2 * weightFor p.1 t| + |(rest.map (fun p => p.2 * weightFor p.1 t)).sum| :=
          abs_add _ _
      _ ≤ (1/2) * |weightFor p.1 t| + (1/2) * (rest.map (fun p => |weightFor p.1 t|)).sum := by
          linarith
      _ = (1/2) * (|weightFor p.1 t| + (rest.map (fun p => |weightFor p.1 t|)).sum) := by
          ring

theorem lookup_none_of_not_mem (s : String) (h : s ∉ SIGNAL_NAMES) :
    SIGNAL_TO_TRAIT_WEIGHTS s = none := by
  simp only [SIGNAL_NAMES, List.mem_cons, List.not_mem_nil, or_false, not_or] at h
  obtain ⟨h1, h2, h3, h4, h5, h6, h7⟩ := h
  unfold SIGNAL_TO_TRAIT_WEIGHTS SIGNAL_TO_TRAIT_WEIGHTS_TABLE
  have e1 : (s == "spontaneity") = false := beq_eq_false_iff_ne.mpr h1
  have e2 : (s == "planning_preference") = false := beq_eq_false_iff_ne.mpr h2
  have e3 : (s == "social_energy") = false := beq_eq_false_iff_ne.mpr h3
  have e4 : (s == "curiosity") = false := beq_eq_false_iff_ne.mpr h4
  have e5 : (s == "introspection") = false := beq_eq_false_iff_ne.mpr h5
  have e6 : (s == "nature_orientation") = false := beq_eq_false_iff_ne.mpr h6
  have e7 : (s == "novelty_seeking") = false := beq_eq_false_iff_ne.mpr h7
  simp [List.lookup, e1, e2, e3, e4, e5, e6, e7]

theorem weightFor_not_mem (s : String) (h : s ∉ SIGNAL_NAMES) (t : TraitName) :
    weightFor s t = 0 := by
  unfold weightFor
  rw [lookup_none_of_not_mem s h]
  simp [weightSumFor]

theorem traitWeightSum_nonneg (t : TraitName) : 0 ≤ traitWeightSum t := by
  unfold traitWeightSum
  apply List.sum_nonneg
  intro x hx
  rcases List.mem_map.mp hx with ⟨s, _, rfl⟩
  exact abs_nonneg _

theorem sum_abs_weight_le (t : TraitName) (names : List String) (hnd : names.Nodup) :
    (names.map (fun s => |weightFor s t|)).sum ≤ traitWeightSum t := by
  classical
  have hN : SIGNAL_NAMES.Nodup := by decide
  unfold traitWeightSum
  rw [← List.sum_toFinset _ hnd, ← List.sum_toFinset _ hN]
  have h1 : (names.toFinset).sum (fun s => |weightFor s t|)
      = (names.toFinset ∩ SIGNAL_NAMES.toFinset).sum (fun s => |weightFor s t|) := by
    refine (Finset.sum_subset Finset.inter_subset_left ?_).symm
    intro x hx hnx
    have hmem : x ∉ SIGNAL_NAMES := by
      intro hmem
      exact hnx (Finset.mem_inter.mpr ⟨hx, List.mem_toFinset.mpr hmem⟩)
    rw [weightFor_not_mem x hmem t, abs_zero]
  rw [h1]
  refine Finset.sum_le_sum_of_subset_of_nonneg Finset.inter_subset_right ?_
  intro i _ _
  exact abs_nonneg _

theorem abs_clamp_sub_le (x d : ℝ) (h0 : 0 ≤ x) (h1 : x ≤ 1) :
    |clamp (x + d) 0 1 - x| ≤ |d| := by
  unfold clamp
  rcases le_total (x + d) 0 with hle | hge
  · rw [max_eq_right hle, min_eq_left (by norm_num : (0:ℝ) ≤ 1)]
    rw [zero_sub, abs_neg, abs_of_nonneg h0]
    calc x ≤ -d := by linarith
      _ ≤ |d| := neg_le_abs d
  · rw [max_eq_left hge]
    rcases le_total (x + d) 1 with hle1 | hgt1
    · rw [min_eq_left hle1, add_sub_cancel_left]
    · rw [min_eq_right hgt1]
      rw [abs_of_nonneg (by linarith : (0:ℝ) ≤ 1 - x)]
      calc 1 - x ≤ d := by linarith
        _ ≤ |d| := le_abs_self d

theorem buildProfile_get (user : Option User) (signals : List (String × ℝ))
    (confidence : ℝ) (t : TraitName) :
    ((buildProfileUpdateFromSignals user signals confidence).traits).get t
      = clamp ((baseTraitsOf user).get t
          + (traitDeltas signals).get t * (clamp confidence 0 1 * 0.2)) 0 1 := by
  cases t <;> rfl

/-- Claim C7: for signal magnitudes in [-0.5, 0.5], duplicate-free signal
names, confidence in [0,1] and a current profile within bounds, one
buildProfileUpdateFromSignals call moves each trait by at most
confidence * 0.2 * (0.5 * Σ|weights touching the trait|) — the move scales
down linearly with confidence — and in particular by at most
0.2 * (0.5 * Σ|weights touching the trait|). -/
theorem C7_bounded_move (user : Option User) (signals : List (String × ℝ))
    (confidence : ℝ) (t : TraitName)
    (hbase0 : 0 ≤ (baseTraitsOf user).get t) (hbase1 : (baseTraitsOf user).get t ≤ 1)
    (hsig : ∀ p ∈ signals, |p.2| ≤ 1/2)
    (hnd : (signals.map Prod.fst).Nodup)
    (hc0 : 0 ≤ confidence) (hc1 : confidence ≤ 1) :
    |((buildProfileUpdateFromSignals user signals confidence).traits).get t
        - (baseTraitsOf user).get t|
      ≤ confidence * 0.2 * (0.5 * traitWeightSum t) ∧
    |((buildProfileUpdateFromSignals user signals confidence).traits).get t
        - (baseTraitsOf user).get t|
      ≤ 0.2 * (0.5 * traitWeightSum t) := by
  have hstep : clamp confidence 0 1 = confidence := by
    unfold clamp
    rw [max_eq_left hc0, min_eq_left hc1]
  have hmove : |((buildProfileUpdateFromSignals user signals confidence).traits).get t
      - (baseTraitsOf user).get t|
      ≤ |(traitDeltas signals).get t * (clamp confidence 0 1 * 0.2)| := by
    rw [buildProfile_get]
    exact abs_clamp_sub_le _ _ hbase0 hbase1
  have hdelta : |(traitDeltas signals).get t| ≤ (1/2) * traitWeightSum t := by
    rw [traitDeltas_get]
    calc |(signals.map (fun p => p.2 * weightFor p.1 t)).sum|
        ≤ (1/2) * (signals.map (fun p => |weightFor p.1 t|)).sum :=
          abs_weighted_sum_le t signals hsig
      _ ≤ (1/2) * traitWeightSum t := by
          have heq : signals.map (fun p => |weightFor p.1 t|)
              = (signals.map Prod.fst).map (fun s => |weightFor s t|) := by
            rw [List.map_map]
            rfl
          have := sum_abs_weight_le t (signals.map Prod.fst) hnd
          rw [heq]
          linarith
  have habs : |(traitDeltas signals).get t * (clamp confidence 0 1 * 0.2)|
      = |(traitDeltas signals).get t| * (confidence * 0.2) := by
    rw [hstep, abs_mul, abs_of_nonneg (by positivity : (0:ℝ) ≤ confidence * 0.2)]
  have hW := traitWeightSum_nonneg t
  have hb1 : |((buildProfileUpdateFromSignals user signals confidence).traits).get t
      - (baseTraitsOf user).get t|
      ≤ confidence * 0.2 * (0.5 * traitWeightSum t) := by
    have h2 : |(traitDeltas signals).get t| * (confidence * 0.2)
        ≤ ((1/2) * traitWeightSum t) * (confidence * 0.2) :=
      mul_le_mul_of_nonneg_right hdelta (by positivity)
    calc |((buildProfileUpdateFromSignals user signals confidence).traits).get t
        - (baseTraitsOf user).get t|
        ≤ |(traitDeltas signals).get t * (clamp confidence 0 1 * 0.2)| := hmove
      _ = |(traitDeltas signals).get t| * (confidence * 0.2) := habs
      _ ≤ ((1/2) * traitWeightSum t) * (confidence * 0.2) := h2
      _ = confidence * 0.2 * (0.5 * traitWeightSum t) := by ring
  refine ⟨hb1, le_trans hb1 ?_⟩
  nlinarith

/-- Claim C7 witness: one social_energy signal of magnitude 0.4 at
confidence 0.8 on the default profile, bounding the extraversion move. -/
theorem C7_witness :
    ((0:ℝ) ≤ 4/5) ∧ ((4:ℝ)/5 ≤ 1) ∧
    |((buildProfileUpdateFromSignals none [("social_energy", 2/5)] (4/5)).traits).get
        .extraversion - (baseTraitsOf none).get .extraversion|
      ≤ (4/5) * 0.2 * (0.5 * traitWeightSum .extraversion) ∧
    |((buildProfileUpdateFromSignals none [("social_energy", 2/5)] (4/5)).traits).get
        .extraversion - (baseTraitsOf none).get .extraversion|
      ≤ 0.2 * (0.5 * traitWeightSum .extraversion) := by
  have h := C7_bounded_move none [("social_energy", 2/5)] (4/5) .extraversion
    (by norm_num [baseTraitsOf, DEFAULT_TRAITS, Traits.get])
    (by norm_num [baseTraitsOf, DEFAULT_TRAITS, Traits.get])
    (by
      intro p hp
      simp only [List.mem_cons, List.not_mem_nil, or_false] at hp
      rw [hp]
      rw [show |(2:ℝ)/5| = 2/5 from abs_of_nonneg (by norm_num)]
      norm_num)
    (by simp)
    (by norm_num) (by norm_num)
  exact ⟨by norm_num, by norm_num, h.1, h.2⟩

end Engine

namespace Engine

/-- EMBEDDING_DIM of llm.ts. -/
def EMBEDDING_DIM : ℕ := 16

/-- text.toLowerCase().trim() of llm.ts, modelled characterwise: lowercase
every character, then drop leading and trailing whitespace. -/
def jsTrimLower (text : String) : String :=
  String.mk ((((text.toList.map Char.toLower).dropWhile
    Char.isWhitespace).reverse.dropWhile Char.isWhitespace).reverse)

/-- values[i % 16] += v of the hashEmbedding loop. -/
noncomputable def bump (values : List ℝ) (i : ℕ) (v : ℝ) : List ℝ :=
  values.set i (values.getD i 0 + v)

/-- hashEmbedding of llm.ts (lines 70-78): fold (charCode % 31) / 31 of
every character of the cleaned text into 16 buckets by character position,
then normalize. -/
noncomputable def hashEmbedding (text : String) : List ℝ :=
  let clean := jsTrimLower text
  let values := (clean.toList.enum).foldl
    (fun vals p => bump vals (p.1 % EMBEDDING_DIM) (((p.2.toNat % 31 : ℕ) : ℝ) / 31))
    (List.replicate EMBEDDING_DIM 0)
  normalizeVector values

/-- getTextEmbedding of llm.ts (lines 80-100): a blank key gives the zero
vector; then the cache is consulted; otherwise the external embeddings API
call (modelled as an Except parameter) is made, a successful response is
truncated to 16 entries and normalized (empty responses fall back to the
hash embedding), and a thrown failure is recovered locally by the
deterministic hash embedding — the function itself never fails.  Writing
the result back to the cache is external state not returned here. -/
noncomputable def getTextEmbedding (text : String) (cache : List (String × List ℝ))
    (external : Except Unit (List ℝ)) : List ℝ :=
  let key := jsTrimLower text
  if key = "" then List.replicate EMBEDDING_DIM 0
  else
    match cache.lookup key with
    | some cached => cached
    | none =>
      match external with
      | .ok response =>
        let embedding := response.take EMBEDDING_DIM
        if embedding.length ≠ 0 then normalizeVector embedding else hashEmbedding key
      | .error _ => hashEmbedding key

theorem bump_length (values : List ℝ) (i : ℕ) (v : ℝ) :
    (bump values i v).length = values.length := by
  unfold bump
  simp

theorem hashFold_length (l : List (ℕ × Char)) :
    ∀ vals : List ℝ,
      (l.foldl (fun vals p => bump vals (p.1 % EMBEDDING_DIM) (((p.2.toNat % 31 : ℕ) : ℝ) / 31))
        vals).length = vals.length := by
  induction l with
  | nil => intro vals; rfl
  | cons p rest ih =>
    intro vals
    simp only [List.foldl_cons]
    rw [ih, bump_length]

theorem hashEmbedding_length (text : String) :
    (hashEmbedding text).length = EMBEDDING_DIM := by
  unfold hashEmbedding
  rw [length_normalizeVector, hashFold_length]
  simp

/-- Claim C8: for a non-blank key that is not cached, a failing external
embedding call makes getTextEmbedding return the deterministic hash-based
pseudo-embedding of the same fixed dimensionality 16 instead of
propagating the failure (the function is total and cannot fail). -/
theorem C8_embedding_fallback (text : String) (cache : List (String × List ℝ))
    (hkey : jsTrimLower text ≠ "") (hcache : cache.lookup (jsTrimLower text) = none) :
    getTextEmbedding text cache (.error ()) = hashEmbedding (jsTrimLower text) ∧
    (getTextEmbedding text cache (.error ())).length = EMBEDDING_DIM := by
  have h : getTextEmbedding text cache (.error ()) = hashEmbedding (jsTrimLower text) := by
    unfold getTextEmbedding
    simp only [hcache]
    rw [if_neg hkey]
  exact ⟨h, by rw [h, hashEmbedding_length]⟩

/-- Claim C8 witness: the text "hi" with an empty cache and a failing
external call returns hashEmbedding "hi", a 16-entry vector. -/
theorem C8_witness :
    jsTrimLower "hi" ≠ "" ∧
    ([] : List (String × List ℝ)).lookup (jsTrimLower "hi") = none ∧
    getTextEmbedding "hi" [] (.error ()) = hashEmbedding (jsTrimLower "hi") ∧
    (getTextEmbedding "hi" [] (.error ())).length = EMBEDDING_DIM :=
  ⟨by decide, rfl,
   (C8_embedding_fallback "hi" [] (by decide) rfl).1,
   (C8_embedding_fallback "hi" [] (by decide) rfl).2⟩

end Engine

namespace Engine

/-- N_NEIGHBORS of projection.ts. -/
def N_NEIGHBORS : ℕ := 15

/-- The random fallback positions of computeUMAP: three
Math.random() * 2 - 1 coordinates per point, drawn sequentially from the
random stream. -/
noncomputable def randomCubePositions (rand : ℕ → ℝ) (n : ℕ) : List (List ℝ) :=
  (List.range n).map (fun i =>
    [rand (3*i) * 2 - 1, rand (3*i + 1) * 2 - 1, rand (3*i + 2) * 2 - 1])

/-- computeUMAP of projection.ts (lines 474-501): with fewer vectors than
N_NEIGHBORS the UMAP fit is skipped and every point gets random cube
coordinates — the only signal is a console warning, which leaves no trace
in the returned value; otherwise the external umap-js fit runs.  The
library fit and the Math.random stream are explicit parameters. -/
noncomputable def computeUMAP (umapFit : List (List ℝ) → List (List ℝ))
    (rand : ℕ → ℝ) (vectors : List (List ℝ)) : List (List ℝ) :=
  if vectors.length < N_NEIGHBORS then randomCubePositions rand vectors.length
  else umapFit vectors

/-- Spec-side variant for claim C9, following the specification's words:
the fallback must be observable via a flag, so the result carries a
Boolean marking whether the random-cube fallback was taken. -/
noncomputable def computeUMAPFlagged (umapFit : List (List ℝ) → List (List ℝ))
    (rand : ℕ → ℝ) (vectors : List (List ℝ)) : Bool × List (List ℝ) :=
  if vectors.length < N_NEIGHBORS then (true, randomCubePositions rand vectors.length)
  else (false, umapFit vectors)

/-- Concrete length-preserving stand-in for the external umap-js fit. -/
noncomputable def exC9fit : List (List ℝ) → List (List ℝ) :=
  fun vs => vs.map (fun _ => [0, 0, 0])

/-- Concrete random stream: constantly one half. -/
noncomputable def exC9rand : ℕ → ℝ := fun _ => 1/2

theorem randomCube_const :
    randomCubePositions exC9rand 14 = List.replicate 14 [(0:ℝ), 0, 0] := by
  apply List.eq_replicate_iff.mpr
  refine ⟨by simp [randomCubePositions], ?_⟩
  intro b hb
  rcases List.mem_map.mp hb with ⟨i, _, rfl⟩
  norm_num [exC9rand]

/-- Claim C9 counterexample: the code's computeUMAP returns exactly the
flag-stripped second component of the spec's flagged contract, in both a
fallback run (14 points, flag true) and a real run (15 points, flag
false); the fallback run returns the bare coordinate list
replicate 14 [0,0,0] with no observable flag, so callers cannot see from
the returned value that the fallback was taken. -/
theorem C9_counterexample :
    computeUMAP exC9fit exC9rand (List.replicate 14 [(1:ℝ)])
      = (computeUMAPFlagged exC9fit exC9rand (List.replicate 14 [(1:ℝ)])).2 ∧
    (computeUMAPFlagged exC9fit exC9rand (List.replicate 14 [(1:ℝ)])).1 = true ∧
    computeUMAP exC9fit exC9rand (List.replicate 15 [(1:ℝ)])
      = (computeUMAPFlagged exC9fit exC9rand (List.replicate 15 [(1:ℝ)])).2 ∧
    (computeUMAPFlagged exC9fit exC9rand (List.replicate 15 [(1:ℝ)])).1 = false ∧
    computeUMAP exC9fit exC9rand (List.replicate 14 [(1:ℝ)])
      = List.replicate 14 [(0:ℝ), 0, 0] := by
  refine ⟨?_, ?_, ?_, ?_, ?_⟩
  · simp [computeUMAP, computeUMAPFlagged, N_NEIGHBORS]
  · simp [computeUMAPFlagged, N_NEIGHBORS]
  · simp [computeUMAP, computeUMAPFlagged, N_NEIGHBORS]
  · simp [computeUMAPFlagged, N_NEIGHBORS]
  · have h : computeUMAP exC9fit exC9rand (List.replicate 14 [(1:ℝ)])
        = randomCubePositions exC9rand 14 := by
      unfold computeUMAP
      rw [if_pos (by simp [N_NEIGHBORS])]
      simp
    rw [h, randomCube_const]

/-- Claim C9 (amended): with fewer vectors than N_NEIGHBORS, computeUMAP
assigns every point three coordinates rand * 2 - 1 inside the cube [-1,1)
(given a random source in [0,1)) instead of running the reduction; the
returned value is a bare coordinate list of the input's length — the
fallback is signalled only by a console warning, not by any flag in the
returned value (see the counterexample). -/
theorem C9_fallback_cube (umapFit : List (List ℝ) → List (List ℝ)) (rand : ℕ → ℝ)
    (vectors : List (List ℝ)) (hn : vectors.length < N_NEIGHBORS)
    (hr : ∀ i, 0 ≤ rand i ∧ rand i < 1) :
    (computeUMAP umapFit rand vectors).length = vectors.length ∧
    ∀ p ∈ computeUMAP umapFit rand vectors, p.length = 3 ∧
      ∀ x ∈ p, -1 ≤ x ∧ x < 1 := by
  unfold computeUMAP
  rw [if_pos hn]
  constructor
  · simp [randomCubePositions]
  · intro p hp
    rcases List.mem_map.mp hp with ⟨i, _, rfl⟩
    refine ⟨rfl, ?_⟩
    intro x hx
    simp only [List.mem_cons, List.not_mem_nil, or_false] at hx
    rcases hx with h | h | h
    · rw [h]
      have hi := hr (3*i)
      exact ⟨by linarith [hi.1], by linarith [hi.2]⟩
    · rw [h]
      have hi := hr (3*i + 1)
      exact ⟨by linarith [hi.1], by linarith [hi.2]⟩
    · rw [h]
      have hi := hr (3*i + 2)
      exact ⟨by linarith [hi.1], by linarith [hi.2]⟩

/-- Claim C9 witness: one point, constant random stream one half. -/
theorem C9_witness :
    (List.replicate 1 [(1:ℝ)]).length < N_NEIGHBORS ∧
    (computeUMAP exC9fit exC9rand (List.replicate 1 [(1:ℝ)])).length
      = (List.replicate 1 [(1:ℝ)]).length ∧
    ∀ p ∈ computeUMAP exC9fit exC9rand (List.replicate 1 [(1:ℝ)]), p.length = 3 ∧
      ∀ x ∈ p, -1 ≤ x ∧ x < 1 := by
  have h := C9_fallback_cube exC9fit exC9rand (List.replicate 1 [(1:ℝ)])
    (by simp [N_NEIGHBORS])
    (by
      intro i
      constructor <;> norm_num [exC9rand])
  exact ⟨by simp [N_NEIGHBORS], h.1, h.2⟩

end Engine
